import Mathlib

/-!
Verification development for the image-compression batch tool (`src/main.py`).

The program is a thin wrapper over an image codec (PIL) and a web widget
framework (Streamlit).  The codec and the widget layer are external
collaborators; following the specification they are modelled as opaque
capabilities: a `Codec` structure bundles the decode / color-convert /
encode primitives, and all program functions are parameterised by it.
The logic of the program itself — `sizeof_fmt`, `lossless_compression`,
`process_images`, and the zip-building / session-cache parts of `main` —
is embedded statement by statement.

Machine arithmetic notes: Python integers are unbounded, so byte counts
are `Nat`/`Int`.  `sizeof_fmt` divides by `1024.0` in floats, which is
exact for all byte counts the program can meet (division by a power of
two and integer-to-float conversion are exact below 2^53), so the
embedding uses exact rationals, with round-half-to-even one-decimal
formatting — the rounding CPython applies when formatting a float whose
value is exact.

String primitives: Python `name.split(".")`, `str.lower` and the slice
`[1:]` are given structurally recursive definitions over the character
list of the string (semantically the standard ones), so that every
definition evaluates inside the kernel.
-/

namespace ImageCompression

/-- Raw byte strings (Python `bytes` / `BytesIO` contents). -/
abbrev Bytes := List Nat

/-- What the program observes of a `PIL.Image`: its reported `format`
attribute (`None` for images not produced by `Image.open`) and its pixel
data, abstracted to an opaque identifier. -/
structure PILImage where
  format : Option String
  pixels : Nat
deriving DecidableEq, Repr

/-- An uploaded file as the program sees it: `uploaded_file.name` and the
byte content returned by `uploaded_file.getvalue()`. -/
structure UploadedFile where
  name : String
  content : Bytes
deriving DecidableEq, Repr

/-- The external image codec (PIL), treated as an opaque capability.
`decodeBytes` models `Image.open(io.BytesIO(data))` — it receives only
the raw bytes.  `decodeFile` models `Image.open(uploaded_file)` — it
receives the whole file object.  `convertRGB` models the pixel transform
of the conversion to 3-channel RGB (alpha dropped), and
`encode p fmt optimize` models saving pixel data `p` in format `fmt`
with the optimize flag on or off, returning the buffer contents.  Decode
errors carry the exception message. -/
structure Codec where
  decodeBytes : Bytes → Except String PILImage
  decodeFile : UploadedFile → Except String PILImage
  convertRGB : Nat → Nat
  encode : Nat → String → Bool → Bytes

/-- Python exceptions that escape `process_images`: a decode error from
the codec (message propagated verbatim), or the `AttributeError` raised
by `img.format.lower()` when `img.format` is `None`. -/
inductive PyError where
  | decodeError (msg : String)
  | attributeError
deriving DecidableEq, Repr

/-- `zipfile` compression methods occurring in the program. -/
inductive ZipMethod where
  | deflated
  | stored
deriving DecidableEq, Repr

/-- One entry of the output archive: the name passed to
`zip_file.writestr`, the entry data, and the compression method. -/
structure ZipEntry where
  name : String
  data : Bytes
  method : ZipMethod
deriving DecidableEq, Repr

deriving instance DecidableEq for Except

/-- Python `str.split` at dots, over a character list: always returns a
nonempty list of (possibly empty) dot-free chunks. -/
def splitDots (l : List Char) : List (List Char) :=
  match l with
  | [] => [[]]
  | ch :: rest =>
    match splitDots rest with
    | [] => [[]]
    | h :: t => if ch = '.' then [] :: h :: t else (ch :: h) :: t

/-- Python `name.split(".")[-1]`: the part after the last dot (the whole
string when it has no dot). -/
def lastPart (s : String) : String :=
  String.mk ((splitDots s.data).getLastD s.data)

/-- Python `str.lower` (ASCII range, as used on format names and file
extensions here). -/
def pyLower (s : String) : String :=
  String.mk (s.data.map Char.toLower)

/-- Python slice `s[1:]`. -/
def pyTail (s : String) : String :=
  String.mk (s.data.drop 1)

/-- Python `str.rfind` of a character, over a character list: the highest
index holding `c`, or `-1` when `c` does not occur. -/
def rfindList (l : List Char) (c : Char) : Int :=
  match l with
  | [] => -1
  | a :: as =>
    let r := rfindList as c
    if r ≥ 0 then r + 1 else if a = c then 0 else -1

/-- `os.path.splitext` (posix flavour: separator `/`, extension separator
the dot).  Splits at the last dot that comes after the last path
separator, provided some character strictly between the separator and
that dot is not itself a dot — so leading-dot basenames such as `".jpg"`
have no extension. -/
def splitext (p : String) : String × String :=
  let l := p.data
  let sepIndex := rfindList l '/'
  let dotIndex := rfindList l '.'
  if dotIndex > sepIndex then
    let filenameIndex := (sepIndex + 1).toNat
    if ((l.drop filenameIndex).take (dotIndex.toNat - filenameIndex)).any (fun ch => ch ≠ '.') then
      (String.mk (l.take dotIndex.toNat), String.mk (l.drop dotIndex.toNat))
    else (p, "")
  else (p, "")

/-- Round a rational to the nearest integer, ties to even — the rounding
CPython uses when turning a float into a fixed-precision decimal
string. -/
def roundHalfEven (q : ℚ) : Int :=
  if q - ⌊q⌋ < 1/2 then ⌊q⌋
  else if q - ⌊q⌋ > 1/2 then ⌊q⌋ + 1
  else if ⌊q⌋ % 2 = 0 then ⌊q⌋ else ⌊q⌋ + 1

/-- Python `"%3.1f" % num`: the value formatted with one decimal digit.
(The minimum width 3 never pads in this program: a one-decimal rendering
always has at least three characters.) -/
def fmt1 (num : ℚ) : String :=
  (if roundHalfEven (10 * num) < 0 then "-" else "")
    ++ toString ((roundHalfEven (10 * num)).natAbs / 10)
    ++ "." ++ toString ((roundHalfEven (10 * num)).natAbs % 10)

/-- The unit loop of `sizeof_fmt` over the unit list
`["", "K", "M", "G", "T", "P", "E", "Z"]`: print at the first unit where
`abs(num) < 1024`, else divide by 1024 and continue; after the loop print
with unit `"Yi"`. -/
def sizeof_fmt_loop (num : ℚ) (units : List String) (suffix : String) : String :=
  match units with
  | [] => fmt1 num ++ "Yi" ++ suffix
  | u :: rest =>
    if |num| < 1024 then fmt1 num ++ u ++ suffix
    else sizeof_fmt_loop (num / 1024) rest suffix

/-- `sizeof_fmt(num, suffix="B")` from `src/main.py`. -/
def sizeof_fmt (num : ℚ) (suffix : String := "B") : String :=
  sizeof_fmt_loop num ["", "K", "M", "G", "T", "P", "E", "Z"] suffix

/-- `lossless_compression(img, img_format)` from `src/main.py`: convert
the image to RGB, encode once with default settings into
`original_buffer`, once with the optimize flag into `compressed_buffer`,
and return the optimized buffer together with
`original_size - compressed_size`. -/
def lossless_compression (c : Codec) (img : PILImage) (img_format : String) : Bytes × Int :=
  let img : PILImage := { format := none, pixels := c.convertRGB img.pixels }
  let original_buffer := c.encode img.pixels img_format false
  let original_size : Int := original_buffer.length
  let compressed_buffer := c.encode img.pixels img_format true
  let compressed_size : Int := compressed_buffer.length
  (compressed_buffer, original_size - compressed_size)

/-- The file extension lowercases to `jpg` or `jpeg`. -/
def jpgName (n : String) : Prop :=
  pyLower (lastPart n) = "jpg" ∨ pyLower (lastPart n) = "jpeg"

instance (n : String) : Decidable (jpgName n) := by
  unfold jpgName
  infer_instance

/-- The decode step of the `process_images` loop body: for filenames
whose extension (the part after the last dot) lowercases to `jpg` or
`jpeg`, only the raw bytes are handed to the codec
(`Image.open(io.BytesIO(uploaded_file.getvalue()))`); otherwise the file
object itself is opened (`Image.open(uploaded_file)`). -/
def openImage (c : Codec) (f : UploadedFile) : Except String PILImage :=
  if jpgName f.name then
    c.decodeBytes f.content
  else
    c.decodeFile f

/-- One iteration of the `process_images` loop: decode, read
`img.format.lower()` (an `AttributeError` when `format` is `None`), and
run `lossless_compression`.  Returns the pair appended to the two result
lists. -/
def processOne (c : Codec) (f : UploadedFile) : Except PyError (Bytes × Int) :=
  match openImage c f with
  | .error msg => .error (.decodeError msg)
  | .ok img =>
    match img.format with
    | none => .error .attributeError
    | some s => .ok (lossless_compression c img (pyLower s))

/-- The `process_images` loop with its two accumulator lists
`compressed_images` and `space_saved`; an exception aborts the whole
call, discarding the accumulators. -/
def process_images_loop (c : Codec) (files : List UploadedFile)
    (compressed_images : List Bytes) (space_saved : List Int) :
    Except PyError (List Bytes × List Int) :=
  match files with
  | [] => .ok (compressed_images, space_saved)
  | f :: rest =>
    match processOne c f with
    | .error e => .error e
    | .ok r => process_images_loop c rest (compressed_images ++ [r.1]) (space_saved ++ [r.2])

/-- `process_images(uploaded_files)` from `src/main.py`. -/
def process_images (c : Codec) (files : List UploadedFile) :
    Except PyError (List Bytes × List Int) :=
  process_images_loop c files [] []

/-- The filename given to `zip_file.writestr`: with
`filename, file_extension = os.path.splitext(original_filename)` and
`img_extension = file_extension[1:]`, the entry is named
`filename + "_optimized." + img_extension`. -/
def optimizedName (original_filename : String) : String :=
  let p := splitext original_filename
  let img_extension := pyTail p.2
  p.1 ++ "_optimized." ++ img_extension

/-- The zip-building loop of `main`: one `ZIP_DEFLATED` entry per
compressed image, paired by index with the stored original filenames (in
`main` both lists always have the same length). -/
def buildZipEntries (compressed_images : List Bytes) (original_filenames : List String) :
    List ZipEntry :=
  (compressed_images.zip original_filenames).map fun p =>
    { name := optimizedName p.2, data := p.1, method := ZipMethod.deflated }

/-- `st.session_state.processed_images`: the dictionary stored after a
batch is processed. -/
structure SessionCache where
  compressed_images : List Bytes
  space_saved : List Int
  original_filenames : List String
deriving DecidableEq, Repr

/-- One rerun of the body of `main`, given the current session state and
the uploader file list: when files are present, they are processed only
if `session_state.processed_images is None`, otherwise the cached results
are reused; the zip is then built from the (possibly cached) compressed
images and the filenames stored in the session state.  Returns the new
session state and the archive entries offered for download. -/
def main_step (c : Codec) (st : Option SessionCache) (uploaded_files : List UploadedFile) :
    Except PyError (Option SessionCache × List ZipEntry) :=
  if uploaded_files.isEmpty then .ok (st, [])
  else
    match st with
    | none =>
      match process_images c uploaded_files with
      | .error e => .error e
      | .ok r =>
        let cache : SessionCache :=
          { compressed_images := r.1
            space_saved := r.2
            original_filenames := uploaded_files.map UploadedFile.name }
        .ok (some cache, buildZipEntries cache.compressed_images cache.original_filenames)
    | some cache =>
      .ok (some cache, buildZipEntries cache.compressed_images cache.original_filenames)

/-- Substring test on strings, used to express that an error message
identifies a filename. -/
def containsStr (s sub : String) : Bool :=
  (List.range (s.data.length + 1)).any fun i => sub.data.isPrefixOf (s.data.drop i)

/-- Whether a propagated error mentions a given filename. -/
def errMentions (e : PyError) (name : String) : Bool :=
  match e with
  | .decodeError msg => containsStr msg name
  | .attributeError => false

/-- Splitting a filename at its last dot, exactly as the words of the
specification describe the derivation of archive entry names (base and
extension split from the original filename at the last dot).  This is
the spec-side definition, to be compared with the source-side
`splitext`. -/
def specLastDotSplit (n : String) : String × String :=
  let l := n.data
  let d := rfindList l '.'
  if d ≥ 0 then (String.mk (l.take d.toNat), String.mk (l.drop (d.toNat + 1)))
  else (n, "")

/-- The archive entry name that the words of the specification predict. -/
def specEntryName (n : String) : String :=
  (specLastDotSplit n).1 ++ "_optimized." ++ (specLastDotSplit n).2

/-- A small concrete codec instantiating the opaque codec parameter in
witnesses: decoding fails on empty byte strings with a fixed message,
otherwise the format is JPEG or PNG according to the first byte; the
optimized encode is one byte shorter than the baseline encode. -/
def demoCodec : Codec where
  decodeBytes := fun b =>
    if b = [] then .error "cannot identify image file"
    else .ok { format := some (if b.headD 0 = 0 then "JPEG" else "PNG"), pixels := b.length }
  decodeFile := fun f =>
    if f.content = [] then .error "cannot identify image file"
    else .ok { format := some (if f.content.headD 0 = 0 then "JPEG" else "PNG"),
               pixels := f.content.length }
  convertRGB := fun p => p + 1
  encode := fun p fmt opt => List.replicate (p + fmt.data.length + (if opt then 0 else 1)) 7

/-- A codec whose optimized encode is larger than its baseline encode
(the optimize flag is not guaranteed to shrink the output). -/
def inflateCodec : Codec where
  decodeBytes := fun b => .ok { format := some "JPEG", pixels := b.length }
  decodeFile := fun f => .ok { format := some "JPEG", pixels := f.content.length }
  convertRGB := fun p => p
  encode := fun _ _ opt => if opt then [7, 7, 7] else [7, 7]

/-- A codec whose decoded images expose no format. -/
def noFormatCodec : Codec where
  decodeBytes := fun b => .ok { format := none, pixels := b.length }
  decodeFile := fun f => .ok { format := none, pixels := f.content.length }
  convertRGB := fun p => p
  encode := fun _ _ _ => [7]


lemma roundHalfEven_intCast (z : ℤ) : roundHalfEven (z : ℚ) = z := by
  unfold roundHalfEven
  simp

lemma fmt1_intCast (z : ℤ) :
    fmt1 (z : ℚ) = (if 10 * z < 0 then "-" else "")
      ++ toString ((10 * z).natAbs / 10) ++ "." ++ toString ((10 * z).natAbs % 10) := by
  unfold fmt1
  have h : (10 : ℚ) * (z : ℚ) = ((10 * z : ℤ) : ℚ) := by push_cast; ring
  rw [h, roundHalfEven_intCast]

lemma roundHalfEven_neg {q : ℚ} (h : q ≤ -10) : roundHalfEven q < 0 := by
  have hf : ⌊q⌋ ≤ -10 := by
    have h2 := Int.floor_le_floor (α := ℚ) h
    rw [show ((-10 : ℚ)) = ((-10 : ℤ) : ℚ) by norm_num, Int.floor_intCast] at h2
    exact h2
  unfold roundHalfEven
  split_ifs <;> omega

lemma fmt1_head_neg {num : ℚ} (h : num ≤ -1) : (fmt1 num).data.head? = some '-' := by
  have ht : roundHalfEven (10 * num) < 0 := roundHalfEven_neg (by linarith)
  unfold fmt1
  rw [if_pos ht]
  simp [String.data_append]

lemma head_append_of_head {s : String} (t : String) (ch : Char)
    (h : s.data.head? = some ch) : (s ++ t).data.head? = some ch := by
  rw [String.data_append]
  cases hd : s.data with
  | nil => rw [hd] at h; simp at h
  | cons a as => rw [hd] at h; simp at h; simp [hd, h]

lemma sizeof_fmt_loop_head_neg (suffix : String) :
    ∀ (us : List String) (num : ℚ), num ≤ -1 →
      (sizeof_fmt_loop num us suffix).data.head? = some '-' := by
  intro us
  induction us with
  | nil =>
    intro num h
    unfold sizeof_fmt_loop
    exact head_append_of_head _ _ (head_append_of_head _ _ (fmt1_head_neg h))
  | cons u rest ih =>
    intro num h
    unfold sizeof_fmt_loop
    by_cases hlt : |num| < 1024
    · rw [if_pos hlt]
      exact head_append_of_head _ _ (head_append_of_head _ _ (fmt1_head_neg h))
    · rw [if_neg hlt]
      apply ih
      have habs : |num| = -num := abs_of_nonpos (by linarith)
      rw [habs] at hlt
      push_neg at hlt
      rw [div_le_iff₀ (by norm_num : (0:ℚ) < 1024)]
      linarith

lemma sizeof_fmt_loop_spec (suffix : String) :
    ∀ (us : List String) (num : ℚ), ∃ k, k ≤ us.length ∧
      sizeof_fmt_loop num us suffix =
        fmt1 (num / 1024 ^ k) ++ (us ++ ["Yi"]).getD k "" ++ suffix ∧
      (∀ j, j < k → 1024 ≤ |num / 1024 ^ j|) ∧
      (k < us.length → |num / 1024 ^ k| < 1024) := by
  intro us
  induction us with
  | nil =>
    intro num
    refine ⟨0, by simp, ?_, by simp, by simp⟩
    unfold sizeof_fmt_loop
    simp
  | cons u rest ih =>
    intro num
    by_cases h : |num| < 1024
    · refine ⟨0, by simp, ?_, by simp, fun _ => by simpa using h⟩
      unfold sizeof_fmt_loop
      rw [if_pos h]
      simp
    · obtain ⟨k, hk, heq, hlow, hhi⟩ := ih (num / 1024)
      have hdiv : ∀ j : ℕ, num / 1024 / 1024 ^ j = num / 1024 ^ (j + 1) := by
        intro j
        rw [div_div, ← pow_succ']
      refine ⟨k + 1, by simpa using Nat.succ_le_succ hk, ?_, ?_, ?_⟩
      · unfold sizeof_fmt_loop
        rw [if_neg h, heq, hdiv]
        simp [List.getD]
      · intro j hj
        cases j with
        | zero => simpa using not_lt.mp h
        | succ j' =>
          rw [← hdiv]
          exact hlow j' (by omega)
      · intro hk2
        rw [← hdiv]
        exact hhi (by simp at hk2; omega)

/-- Claim C3: `sizeof_fmt` scales its argument by
1024 through the unit prefixes of the list
`["", "K", "M", "G", "T", "P", "E", "Z"]` and finally `"Yi"`, appends the
fixed suffix `"B"`, formats the scaled value with one decimal digit
(via `fmt1`), and preserves the sign of negative inputs; in particular
`sizeof_fmt 0 = "0.0B"`, `sizeof_fmt 1023 = "1023.0B"`,
`sizeof_fmt 1024 = "1.0KB"` and `sizeof_fmt (-2048) = "-2.0KB"`. -/
theorem sizeof_fmt_spec :
    sizeof_fmt 0 = "0.0B" ∧ sizeof_fmt 1023 = "1023.0B" ∧
    sizeof_fmt 1024 = "1.0KB" ∧ sizeof_fmt (-2048) = "-2.0KB" ∧
    (∀ n : ℤ, ∃ k, k ≤ 8 ∧
      sizeof_fmt (n : ℚ) =
        fmt1 ((n : ℚ) / 1024 ^ k) ++ ["", "K", "M", "G", "T", "P", "E", "Z", "Yi"].getD k "" ++ "B" ∧
      (∀ j, j < k → 1024 ≤ |(n : ℚ) / 1024 ^ j|) ∧
      (k < 8 → |(n : ℚ) / 1024 ^ k| < 1024)) ∧
    (∀ n : ℤ, n < 0 → (sizeof_fmt (n : ℚ)).data.head? = some '-') := by
  refine ⟨?_, ?_, ?_, ?_, ?_, ?_⟩
  · unfold sizeof_fmt sizeof_fmt_loop
    rw [if_pos (by norm_num : |(0:ℚ)| < 1024)]
    rw [show (0:ℚ) = ((0:ℤ):ℚ) by norm_num, fmt1_intCast]
    decide
  · unfold sizeof_fmt sizeof_fmt_loop
    rw [if_pos (by rw [abs_of_nonneg (by norm_num : (0:ℚ) ≤ 1023)]; norm_num)]
    rw [show (1023:ℚ) = ((1023:ℤ):ℚ) by norm_num, fmt1_intCast]
    decide
  · unfold sizeof_fmt sizeof_fmt_loop
    rw [if_neg (by rw [abs_of_nonneg (by norm_num : (0:ℚ) ≤ 1024)]; norm_num),
      show (1024:ℚ)/1024 = ((1:ℤ):ℚ) by norm_num]
    unfold sizeof_fmt_loop
    rw [if_pos (by rw [show ((1:ℤ):ℚ) = 1 by norm_num, abs_of_nonneg (by norm_num : (0:ℚ) ≤ 1)]; norm_num)]
    rw [fmt1_intCast]
    decide
  · unfold sizeof_fmt sizeof_fmt_loop
    rw [if_neg (by rw [abs_of_nonpos (by norm_num : (-2048:ℚ) ≤ 0)]; norm_num),
      show (-2048:ℚ)/1024 = ((-2:ℤ):ℚ) by norm_num]
    unfold sizeof_fmt_loop
    rw [if_pos (by rw [show ((-2:ℤ):ℚ) = -2 by norm_num, abs_of_nonpos (by norm_num : (-2:ℚ) ≤ 0)]; norm_num)]
    rw [fmt1_intCast]
    decide
  · intro n
    obtain ⟨k, hk, heq, hlow, hhi⟩ := sizeof_fmt_loop_spec "B" ["", "K", "M", "G", "T", "P", "E", "Z"] (n : ℚ)
    exact ⟨k, by simpa using hk, by simpa using heq, hlow, by simpa using hhi⟩
  · intro n hn
    apply sizeof_fmt_loop_head_neg
    have : (n : ℚ) ≤ ((-1 : ℤ) : ℚ) := by exact_mod_cast (by omega : n ≤ -1)
    simpa using this


/-- Witness for claim C3: the sign-preservation clause applied at the
concrete input -2048. -/
theorem sizeof_fmt_spec_witness :
    (-2048 : ℤ) < 0 ∧ (sizeof_fmt ((-2048 : ℤ) : ℚ)).data.head? = some '-' :=
  ⟨by decide, sizeof_fmt_spec.2.2.2.2.2 (-2048) (by decide)⟩

lemma process_images_loop_ok {c : Codec} :
    ∀ {files : List UploadedFile} {acc1 : List Bytes} {acc2 : List Int}
      {imgs : List Bytes} {saved : List Int},
      process_images_loop c files acc1 acc2 = .ok (imgs, saved) →
      ∃ rs : List (Bytes × Int),
        List.Forall₂ (fun f r => processOne c f = .ok r) files rs ∧
        imgs = acc1 ++ rs.map Prod.fst ∧ saved = acc2 ++ rs.map Prod.snd := by
  intro files
  induction files with
  | nil =>
    intro acc1 acc2 imgs saved h
    unfold process_images_loop at h
    simp at h
    exact ⟨[], .nil, by simp [h.1], by simp [h.2]⟩
  | cons f rest ih =>
    intro acc1 acc2 imgs saved h
    unfold process_images_loop at h
    cases hp : processOne c f with
    | error e => rw [hp] at h; simp at h
    | ok r =>
      rw [hp] at h
      obtain ⟨rs, hfa, h1, h2⟩ := ih h
      refine ⟨r :: rs, .cons hp hfa, ?_, ?_⟩
      · rw [h1]; simp
      · rw [h2]; simp

lemma process_images_ok {c : Codec} {files : List UploadedFile}
    {imgs : List Bytes} {saved : List Int}
    (h : process_images c files = .ok (imgs, saved)) :
    ∃ rs : List (Bytes × Int),
      List.Forall₂ (fun f r => processOne c f = .ok r) files rs ∧
      imgs = rs.map Prod.fst ∧ saved = rs.map Prod.snd := by
  obtain ⟨rs, hfa, h1, h2⟩ := process_images_loop_ok h
  exact ⟨rs, hfa, by simpa using h1, by simpa using h2⟩

lemma process_images_loop_error {c : Codec} {f : UploadedFile} {e : PyError}
    (hf : processOne c f = .error e) :
    ∀ (pre post : List UploadedFile) (acc1 : List Bytes) (acc2 : List Int),
      (∀ g ∈ pre, ∃ r, processOne c g = .ok r) →
      process_images_loop c (pre ++ f :: post) acc1 acc2 = .error e := by
  intro pre
  induction pre with
  | nil =>
    intro post acc1 acc2 _
    simp only [List.nil_append]
    unfold process_images_loop
    rw [hf]
  | cons g pre' ih =>
    intro post acc1 acc2 hpre
    obtain ⟨r, hr⟩ := hpre g (by simp)
    simp only [List.cons_append]
    unfold process_images_loop
    rw [hr]
    exact ih post _ _ (fun g' hg' => hpre g' (by simp [hg']))

lemma forall₂_get? {α β : Type} {R : α → β → Prop} :
    ∀ {l₁ : List α} {l₂ : List β}, List.Forall₂ R l₁ l₂ →
      ∀ i, i < l₁.length → ∃ a b, l₁.get? i = some a ∧ l₂.get? i = some b ∧ R a b := by
  intro l₁ l₂ h
  induction h with
  | nil => intro i hi; simp at hi
  | cons ha h' ih =>
    intro i hi
    cases i with
    | zero => exact ⟨_, _, rfl, rfl, ha⟩
    | succ n =>
      obtain ⟨a, b, h1, h2, hr⟩ := ih n (by simpa using hi)
      exact ⟨a, b, by simpa using h1, by simpa using h2, hr⟩

lemma processOne_jpg_eq {c : Codec} {n₁ n₂ : String} (content : Bytes)
    (h₁ : jpgName n₁) (h₂ : jpgName n₂) :
    processOne c ⟨n₁, content⟩ = processOne c ⟨n₂, content⟩ := by
  unfold processOne openImage
  rw [if_pos h₁, if_pos h₂]

/-- Claim C2: for every ordered sequence of uploaded images on which the
batch call succeeds, `process_images` returns exactly one result pair
(compressed bytes, bytes saved) per input, and the order of the results
— and of the archive entries built from them — matches the input
order. -/
theorem process_images_length_and_order :
    ∀ (c : Codec) (files : List UploadedFile) (imgs : List Bytes) (saved : List Int),
      process_images c files = .ok (imgs, saved) →
      imgs.length = files.length ∧ saved.length = files.length ∧
      (∀ i, i < files.length →
        ∃ f b s, files.get? i = some f ∧ imgs.get? i = some b ∧ saved.get? i = some s ∧
          processOne c f = .ok (b, s) ∧
          (buildZipEntries imgs (files.map UploadedFile.name)).get? i =
            some { name := optimizedName f.name, data := b, method := ZipMethod.deflated }) ∧
      (buildZipEntries imgs (files.map UploadedFile.name)).length = files.length := by
  intro c files imgs saved h
  obtain ⟨rs, hfa, h1, h2⟩ := process_images_ok h
  have hlen := hfa.length_eq
  have himgs : imgs.length = files.length := by rw [h1, List.length_map, ← hlen]
  have hsaved : saved.length = files.length := by rw [h2, List.length_map, ← hlen]
  refine ⟨himgs, hsaved, ?_, ?_⟩
  · intro i hi
    obtain ⟨f, r, hf, hr, hpr⟩ := forall₂_get? hfa i hi
    refine ⟨f, r.1, r.2, hf, ?_, ?_, by simpa using hpr, ?_⟩
    · rw [h1, List.get?_map, hr]; rfl
    · rw [h2, List.get?_map, hr]; rfl
    · unfold buildZipEntries
      rw [List.get?_map]
      have hz : (imgs.zip (files.map UploadedFile.name)).get? i = some (r.1, f.name) := by
        rw [List.get?_zip_eq_some]
        constructor
        · rw [h1, List.get?_map, hr]; rfl
        · rw [List.get?_map, hf]; rfl
      rw [hz]
      rfl
  · unfold buildZipEntries
    rw [List.length_map, List.length_zip, List.length_map, himgs]
    simp

/-- Witness for claim C2: the order/length theorem applied to a concrete
successful two-image batch. -/
theorem process_images_length_and_order_witness :
    process_images demoCodec [⟨"a.jpg", [0, 1]⟩, ⟨"b.png", [1, 2]⟩] =
      .ok ([List.replicate 7 7, List.replicate 6 7], [1, 1]) ∧
    ([List.replicate 7 7, List.replicate 6 7] : List Bytes).length =
      ([⟨"a.jpg", [0, 1]⟩, ⟨"b.png", [1, 2]⟩] : List UploadedFile).length ∧
    ([1, 1] : List Int).length = ([⟨"a.jpg", [0, 1]⟩, ⟨"b.png", [1, 2]⟩] : List UploadedFile).length :=
  ⟨by decide,
   (process_images_length_and_order demoCodec [⟨"a.jpg", [0, 1]⟩, ⟨"b.png", [1, 2]⟩]
     [List.replicate 7 7, List.replicate 6 7] [1, 1] (by decide)).1,
   (process_images_length_and_order demoCodec [⟨"a.jpg", [0, 1]⟩, ⟨"b.png", [1, 2]⟩]
     [List.replicate 7 7, List.replicate 6 7] [1, 1] (by decide)).2.1⟩

/-- Claim C4, amended: a decoding failure aborts the whole batch-level
call — the first failing file turns the entire `process_images` call
into that error and no partial results are returned — but the error is
the decoder exception propagated verbatim, not augmented with the
offending filename; indeed for `jpg`/`jpeg` uploads only the raw bytes
reach the decoder, so the outcome (and hence the error) is the same for
any two filenames with such extensions. -/
theorem decode_failure_aborts_batch :
    (∀ (c : Codec) (pre : List UploadedFile) (f : UploadedFile) (post : List UploadedFile)
        (e : PyError),
      (∀ g ∈ pre, ∃ r, processOne c g = .ok r) → processOne c f = .error e →
      process_images c (pre ++ f :: post) = .error e) ∧
    (∀ (c : Codec) (n₁ n₂ : String) (content : Bytes), jpgName n₁ → jpgName n₂ →
      processOne c ⟨n₁, content⟩ = processOne c ⟨n₂, content⟩) := by
  constructor
  · intro c pre f post e hpre hf
    unfold process_images
    exact process_images_loop_error hf pre post [] [] hpre
  · intro c n₁ n₂ content h₁ h₂
    exact processOne_jpg_eq content h₁ h₂

/-- Witness for claim C4: the abort theorem applied to a batch whose
second file fails to decode. -/
theorem decode_failure_aborts_batch_witness :
    processOne demoCodec ⟨"bad.jpg", []⟩ = .error (.decodeError "cannot identify image file") ∧
    process_images demoCodec [⟨"a.jpg", [0, 1]⟩, ⟨"bad.jpg", []⟩, ⟨"c.png", [1]⟩] =
      .error (.decodeError "cannot identify image file") :=
  ⟨by decide,
   decode_failure_aborts_batch.1 demoCodec [⟨"a.jpg", [0, 1]⟩] ⟨"bad.jpg", []⟩ [⟨"c.png", [1]⟩]
     (.decodeError "cannot identify image file")
     (by
       intro g hg
       rw [List.mem_singleton] at hg
       subst hg
       exact ⟨(List.replicate 7 7, 1), by decide⟩)
     (by decide)⟩

/-- Counterexample for claim C4: a corrupt upload named `photo.jpg`
fails the batch with the decoder message alone, which does not contain
(hence cannot identify) the offending filename; the same corrupt bytes
under a different name produce the identical error. -/
theorem decode_error_lacks_filename :
    process_images demoCodec [⟨"photo.jpg", []⟩] =
      .error (.decodeError "cannot identify image file") ∧
    errMentions (.decodeError "cannot identify image file") "photo.jpg" = false ∧
    process_images demoCodec [⟨"other.jpg", []⟩] =
      .error (.decodeError "cannot identify image file") :=
  ⟨by decide, by decide, by decide⟩

/-- Claim C9: format detection is case-insensitive in the file
extension — two filenames whose extensions lowercase equally (and fall
in the jpg/jpeg class) are processed identically on the same content; in
particular `photo.JPEG` and `photo.jpeg` give equal `process_images`
results for every codec and content. -/
theorem jpeg_extension_case_insensitive :
    (∀ (c : Codec) (n₁ n₂ : String) (content : Bytes),
      pyLower (lastPart n₁) = pyLower (lastPart n₂) → jpgName n₁ →
      processOne c ⟨n₁, content⟩ = processOne c ⟨n₂, content⟩) ∧
    (∀ (c : Codec) (content : Bytes),
      process_images c [⟨"photo.JPEG", content⟩] = process_images c [⟨"photo.jpeg", content⟩]) := by
  constructor
  · intro c n₁ n₂ content heq h₁
    have h₂ : jpgName n₂ := by
      unfold jpgName at h₁ ⊢
      rw [← heq]
      exact h₁
    exact processOne_jpg_eq content h₁ h₂
  · intro c content
    have h : processOne c ⟨"photo.JPEG", content⟩ = processOne c ⟨"photo.jpeg", content⟩ :=
      processOne_jpg_eq content (by decide) (by decide)
    unfold process_images process_images_loop
    rw [h]

/-- Witness for claim C9: the case-insensitivity theorem applied to
`photo.JPEG` versus `photo.jpeg` on concrete content. -/
theorem jpeg_extension_case_insensitive_witness :
    pyLower (lastPart "photo.JPEG") = pyLower (lastPart "photo.jpeg") ∧ jpgName "photo.JPEG" ∧
    processOne demoCodec ⟨"photo.JPEG", [5]⟩ = processOne demoCodec ⟨"photo.jpeg", [5]⟩ :=
  ⟨by decide, by decide,
   jpeg_extension_case_insensitive.1 demoCodec "photo.JPEG" "photo.jpeg" [5] (by decide) (by decide)⟩

/-- Claim C5, amended: the format used for re-encoding is always the
lowercased format reported by decoding the image data; when the decoder
exposes no format the call fails with an `AttributeError` — there is no
fall-back to the file extension (the extension only selects how the file
is read, never the encode format). -/
theorem format_from_decoder_only :
    (∀ (c : Codec) (f : UploadedFile) (img : PILImage) (s : String),
      openImage c f = .ok img → img.format = some s →
      processOne c f = .ok (lossless_compression c img (pyLower s))) ∧
    (∀ (c : Codec) (f : UploadedFile) (img : PILImage),
      openImage c f = .ok img → img.format = none →
      processOne c f = .error .attributeError) := by
  constructor
  · intro c f img s ho hf
    unfold processOne
    simp only [ho]
    rw [hf]
  · intro c f img ho hf
    unfold processOne
    simp only [ho]
    rw [hf]

/-- Witness for claim C5: the amended theorem applied to a decoded
image that reports the format `JPEG`. -/
theorem format_from_decoder_only_witness :
    openImage demoCodec ⟨"a.jpg", [0, 1]⟩ = .ok { format := some "JPEG", pixels := 2 } ∧
    processOne demoCodec ⟨"a.jpg", [0, 1]⟩ =
      .ok (lossless_compression demoCodec { format := some "JPEG", pixels := 2 } (pyLower "JPEG")) :=
  ⟨by decide,
   format_from_decoder_only.1 demoCodec ⟨"a.jpg", [0, 1]⟩ { format := some "JPEG", pixels := 2 }
     "JPEG" (by decide) rfl⟩

/-- Counterexample for claim C5: with a decoder that exposes no format,
a file named `photo.png` makes the batch fail with an `AttributeError`
instead of falling back to the extension `png` as the claim states. -/
theorem no_extension_fallback :
    openImage noFormatCodec ⟨"photo.png", [1]⟩ = .ok { format := none, pixels := 1 } ∧
    process_images noFormatCodec [⟨"photo.png", [1]⟩] = .error .attributeError :=
  ⟨by decide, by decide⟩

/-- Claim C1: the bytes-saved value returned by `lossless_compression`
equals exactly the length of the baseline encode (default settings)
minus the length of the optimized encode (optimize flag enabled) of the
same normalized pixel data, as a signed integer; it is not required to
be non-negative — a codec whose optimized encode is larger yields a
negative value. -/
theorem bytes_saved_eq_baseline_minus_optimized :
    (∀ (c : Codec) (img : PILImage) (fmt : String),
      (lossless_compression c img fmt).2 =
        ((c.encode (c.convertRGB img.pixels) fmt false).length : Int) -
        ((c.encode (c.convertRGB img.pixels) fmt true).length : Int)) ∧
    (∃ (c : Codec) (img : PILImage) (fmt : String), (lossless_compression c img fmt).2 < 0) :=
  ⟨fun _ _ _ => rfl, ⟨inflateCodec, { format := some "JPEG", pixels := 0 }, "jpeg", by decide⟩⟩

/-- Witness for claim C1: the equation instantiated at a concrete codec
and image. -/
theorem bytes_saved_eq_baseline_minus_optimized_witness :
    (lossless_compression demoCodec { format := some "JPEG", pixels := 3 } "jpeg").2 =
      ((demoCodec.encode (demoCodec.convertRGB 3) "jpeg" false).length : Int) -
      ((demoCodec.encode (demoCodec.convertRGB 3) "jpeg" true).length : Int) :=
  bytes_saved_eq_baseline_minus_optimized.1 demoCodec { format := some "JPEG", pixels := 3 } "jpeg"

/-- Claim C7: `lossless_compression` converts the image to the
3-channel RGB representation before any encoding — both encodes receive
the converted pixel data — and the buffer retained in the result is
exactly the optimized encode, while the baseline encode contributes only
its length. -/
theorem rgb_conversion_and_retained_buffer :
    ∀ (c : Codec) (img : PILImage) (fmt : String),
      lossless_compression c img fmt =
        (c.encode (c.convertRGB img.pixels) fmt true,
         ((c.encode (c.convertRGB img.pixels) fmt false).length : Int) -
         ((c.encode (c.convertRGB img.pixels) fmt true).length : Int)) :=
  fun _ _ _ => rfl

/-- Witness for claim C7: the characterization instantiated at a
concrete codec and image. -/
theorem rgb_conversion_and_retained_buffer_witness :
    lossless_compression demoCodec { format := some "PNG", pixels := 2 } "png" =
      (demoCodec.encode (demoCodec.convertRGB 2) "png" true,
       ((demoCodec.encode (demoCodec.convertRGB 2) "png" false).length : Int) -
       ((demoCodec.encode (demoCodec.convertRGB 2) "png" true).length : Int)) :=
  rgb_conversion_and_retained_buffer demoCodec { format := some "PNG", pixels := 2 } "png"

/-- Claim C10: the archive entry name (and so its extension) is always
derived from the uploaded filename, while the re-encode format is the
lowercased decoder-reported format; for a file whose extension does not
match its decoded format the entry keeps the original extension while
its bytes are encoded in the decoded format. -/
theorem extension_copied_format_from_decoder :
    ∀ (c : Codec) (f : UploadedFile) (img : PILImage) (s : String),
      openImage c f = .ok img → img.format = some s →
      processOne c f = .ok (lossless_compression c img (pyLower s)) ∧
      (lossless_compression c img (pyLower s)).1 =
        c.encode (c.convertRGB img.pixels) (pyLower s) true ∧
      buildZipEntries [(lossless_compression c img (pyLower s)).1] [f.name] =
        [{ name := optimizedName f.name,
           data := c.encode (c.convertRGB img.pixels) (pyLower s) true,
           method := ZipMethod.deflated }] := by
  intro c f img s ho hf
  refine ⟨?_, rfl, rfl⟩
  unfold processOne
  simp only [ho]
  rw [hf]

/-- Witness for claim C10: PNG-decoded data uploaded as `photo.jpg` —
the entry keeps the `jpg` extension while the bytes are the `png`
encode. -/
theorem extension_copied_format_from_decoder_witness :
    openImage demoCodec ⟨"photo.jpg", [1]⟩ = .ok { format := some "PNG", pixels := 1 } ∧
    (processOne demoCodec ⟨"photo.jpg", [1]⟩ =
      .ok (lossless_compression demoCodec { format := some "PNG", pixels := 1 } (pyLower "PNG")) ∧
    (lossless_compression demoCodec { format := some "PNG", pixels := 1 } (pyLower "PNG")).1 =
      demoCodec.encode (demoCodec.convertRGB 1) (pyLower "PNG") true ∧
    buildZipEntries
        [(lossless_compression demoCodec { format := some "PNG", pixels := 1 } (pyLower "PNG")).1]
        ["photo.jpg"] =
      [{ name := optimizedName "photo.jpg",
         data := demoCodec.encode (demoCodec.convertRGB 1) (pyLower "PNG") true,
         method := ZipMethod.deflated }]) :=
  ⟨by decide,
   extension_copied_format_from_decoder demoCodec ⟨"photo.jpg", [1]⟩
     { format := some "PNG", pixels := 1 } "PNG" (by decide) rfl⟩

/-- First uploaded batch of the claim C8 scenario. -/
def batchA : List UploadedFile := [⟨"a.jpg", [0, 1]⟩]

/-- Second uploaded batch of the claim C8 scenario. -/
def batchB : List UploadedFile := [⟨"b.jpg", [0, 2, 3]⟩]

/-- The session cache stored after processing `batchA` with
`demoCodec`. -/
def cacheA : SessionCache :=
  { compressed_images := [List.replicate 7 7], space_saved := [1],
    original_filenames := ["a.jpg"] }

/-- Claim C8 bug evaluation: within one session, after a first batch is
processed and cached, a rerun with a different uploaded batch returns
the cached state and the first batch archive unchanged — the new batch
is not processed fresh, contradicting the claim (a fresh session would
process it and produce a different archive). -/
theorem session_cache_reused_for_new_batch :
    main_step demoCodec none batchA =
      .ok (some cacheA,
        [{ name := "a_optimized.jpg", data := List.replicate 7 7,
           method := ZipMethod.deflated }]) ∧
    main_step demoCodec (some cacheA) batchB =
      .ok (some cacheA,
        [{ name := "a_optimized.jpg", data := List.replicate 7 7,
           method := ZipMethod.deflated }]) ∧
    main_step demoCodec (some cacheA) batchB ≠ main_step demoCodec none batchB ∧
    main_step demoCodec none batchB =
      .ok (some { compressed_images := [List.replicate 8 7], space_saved := [1],
                  original_filenames := ["b.jpg"] },
        [{ name := "b_optimized.jpg", data := List.replicate 8 7,
           method := ZipMethod.deflated }]) :=
  ⟨by decide, by decide, by decide, by decide⟩

lemma rfindList_eq_neg_one {l : List Char} {c : Char} (h : c ∉ l) : rfindList l c = -1 := by
  induction l with
  | nil => rfl
  | cons a as ih =>
    rw [List.mem_cons, not_or] at h
    unfold rfindList
    rw [ih h.2]
    rw [if_neg (by norm_num), if_neg (fun hac => h.1 hac.symm)]

lemma rfindList_append_last {l₁ l₂ : List Char} {c : Char} (h : c ∉ l₂) :
    rfindList (l₁ ++ c :: l₂) c = l₁.length := by
  induction l₁ with
  | nil =>
    simp only [List.nil_append]
    unfold rfindList
    rw [rfindList_eq_neg_one h]
    simp
  | cons a as ih =>
    simp only [List.cons_append]
    unfold rfindList
    rw [ih]
    rw [if_pos (by positivity)]
    simp

lemma splitext_of_stem_ext (stem ext : String)
    (hne : ∃ ch ∈ stem.data, ch ≠ '.') (hs1 : '/' ∉ stem.data) (hs2 : '/' ∉ ext.data)
    (hdot : '.' ∉ ext.data) :
    splitext (stem ++ "." ++ ext) = (stem, "." ++ ext) := by
  obtain ⟨sd⟩ := stem
  obtain ⟨ed⟩ := ext
  have hdata : ((⟨sd⟩ : String) ++ "." ++ (⟨ed⟩ : String)).data = sd ++ '.' :: ed := by
    simp [String.data_append]
  have hsep : rfindList (sd ++ '.' :: ed) '/' = -1 := by
    apply rfindList_eq_neg_one
    simp only [List.mem_append, List.mem_cons]
    push_neg
    exact ⟨hs1, by decide, hs2⟩
  have hdot2 : rfindList (sd ++ '.' :: ed) '.' = sd.length := rfindList_append_last hdot
  simp only [splitext, hdata, hsep, hdot2]
  norm_num
  rw [if_pos (by omega : (-1 : Int) < (sd.length : Int))]
  rw [if_pos (by simpa using hne)]
  rfl

lemma specLastDotSplit_of_stem_ext (stem ext : String) (hdot : '.' ∉ ext.data) :
    specLastDotSplit (stem ++ "." ++ ext) = (stem, ext) := by
  obtain ⟨sd⟩ := stem
  obtain ⟨ed⟩ := ext
  have hdata : ((⟨sd⟩ : String) ++ "." ++ (⟨ed⟩ : String)).data = sd ++ '.' :: ed := by
    simp [String.data_append]
  simp only [specLastDotSplit, hdata, rfindList_append_last hdot]
  norm_num

/-- Claim C6, amended: every archive entry is a `ZIP_DEFLATED` entry,
one per result and in result order, named from `os.path.splitext` of the
original filename as `{base}_optimized.{ext}`; `splitext` splits at the
last dot of the filename — agreeing with the last-dot split the
specification describes — except for leading-dot basenames (names whose
characters before the last dot are all dots, such as `".jpg"`), where
the extension is empty. -/
theorem zip_entry_naming :
    (∀ (imgs : List Bytes) (names : List String), imgs.length = names.length →
      (buildZipEntries imgs names).length = imgs.length ∧
      (∀ i, i < imgs.length → ∃ n b, names.get? i = some n ∧ imgs.get? i = some b ∧
        (buildZipEntries imgs names).get? i =
          some { name := optimizedName n, data := b, method := ZipMethod.deflated })) ∧
    (∀ (stem ext : String), (∃ ch ∈ stem.data, ch ≠ '.') → '/' ∉ stem.data → '/' ∉ ext.data →
      '.' ∉ ext.data →
      splitext (stem ++ "." ++ ext) = (stem, "." ++ ext) ∧
      optimizedName (stem ++ "." ++ ext) = stem ++ "_optimized." ++ ext ∧
      optimizedName (stem ++ "." ++ ext) = specEntryName (stem ++ "." ++ ext)) := by
  constructor
  · intro imgs names hlen
    constructor
    · unfold buildZipEntries
      rw [List.length_map, List.length_zip, hlen]
      simp
    · intro i hi
      have hb : imgs.get? i = some (imgs.get ⟨i, hi⟩) := List.get?_eq_get hi
      have hn : names.get? i = some (names.get ⟨i, hlen ▸ hi⟩) := List.get?_eq_get (hlen ▸ hi)
      refine ⟨names.get ⟨i, hlen ▸ hi⟩, imgs.get ⟨i, hi⟩, hn, hb, ?_⟩
      unfold buildZipEntries
      rw [List.get?_map]
      have hz : (imgs.zip names).get? i = some (imgs.get ⟨i, hi⟩, names.get ⟨i, hlen ▸ hi⟩) := by
        rw [List.get?_zip_eq_some]
        exact ⟨hb, hn⟩
      rw [hz]
      rfl
  · intro stem ext hne hs1 hs2 hdot
    have hsplit := splitext_of_stem_ext stem ext hne hs1 hs2 hdot
    have htail : pyTail ("." ++ ext) = ext := by
      obtain ⟨ed⟩ := ext
      rfl
    have hopt : optimizedName (stem ++ "." ++ ext) = stem ++ "_optimized." ++ ext := by
      simp only [optimizedName, hsplit]
      rw [htail]
    refine ⟨hsplit, hopt, ?_⟩
    rw [hopt]
    simp only [specEntryName, specLastDotSplit_of_stem_ext stem ext hdot]

/-- Counterexample for claim C6: the uploader accepts the filename
`".jpg"` (it ends in `.jpg`), but `os.path.splitext` treats the whole
name as the base and gives it an empty extension, so the archive entry
is named `".jpg_optimized."` — not the `"_optimized.jpg"` that splitting
at the last dot, as the claim states it, would produce. -/
theorem leading_dot_entry_name :
    buildZipEntries [[7]] [".jpg"] =
      [{ name := ".jpg_optimized.", data := [7], method := ZipMethod.deflated }] ∧
    specEntryName ".jpg" = "_optimized.jpg" ∧
    (".jpg_optimized." : String) ≠ "_optimized.jpg" ∧
    jpgName ".jpg" :=
  ⟨by decide, by decide, by decide, by decide⟩

/-- Witness for claim C6: the amended theorem applied to a two-entry
archive and to the ordinary filename `"photo.jpg"`. -/
theorem zip_entry_naming_witness :
    ([[7], [7, 7]] : List Bytes).length = (["a.jpg", "b.png"] : List String).length ∧
    (buildZipEntries [[7], [7, 7]] ["a.jpg", "b.png"]).length = 2 ∧
    (∃ ch ∈ ("photo" : String).data, ch ≠ '.') ∧
    optimizedName ("photo" ++ "." ++ "jpg") = "photo" ++ "_optimized." ++ "jpg" :=
  ⟨by decide,
   (zip_entry_naming.1 [[7], [7, 7]] ["a.jpg", "b.png"] (by decide)).1,
   ⟨'p', by decide, by decide⟩,
   (zip_entry_naming.2 "photo" "jpg" ⟨'p', by decide, by decide⟩ (by decide) (by decide)
     (by decide)).2.1⟩

end ImageCompression
